import Mathlib

/-!
Verification of the control-conditioning encoder
(`cosmos_transfer1/diffusion/training/networks/general_dit_ctrl_enc_multicamera.py`,
class `GeneralDITMulticamEncoder`) against its specification.

Tensors are modelled at the granularity each property needs: a hidden-state
token is a rational vector (`Vec`), a spatio-temporal map is a nested list
(`Vol`), and external collaborators (backbone blocks, patch/positional
embedding) are abstract functions.  All definitions are executable.
-/

namespace CosmosCtrl

/-- A feature vector (the last tensor axis, e.g. one token of hidden state). -/
abbrev Vec := List ℚ

/-- The all-zero vector of length `n`. -/
def zeroVec (n : ℕ) : Vec := List.replicate n 0

/-- Elementwise addition (torch broadcasting is not needed at the points we model:
both operands always have the same length there). -/
def addVec (a b : Vec) : Vec := List.zipWith (· + ·) a b

/-- Multiplication of a tensor by a scalar.  `t * c1 * c2 * c3` in the source is
modelled as `smul (c1 * c2 * c3) t`, which is elementwise equal. -/
def smul (c : ℚ) (v : Vec) : Vec := v.map (fun q => c * q)

/-- Dot product (truncating zip, as both sides always have equal length in the code). -/
def dot (a b : List ℚ) : ℚ := (List.zipWith (· * ·) a b).sum

/-- An `nn.Linear` layer: a weight matrix (list of rows) and a bias vector. -/
structure Linear where
  weight : List (List ℚ)
  bias : List ℚ
deriving DecidableEq

/-- Application of a linear layer to a feature vector: `W x + b`, row by row. -/
def Linear.apply (l : Linear) (x : Vec) : Vec :=
  List.zipWith (fun row b => dot row x + b) l.weight l.bias

/-- Result of `zero_module(nn.Linear(cols, rows))` (source line 82-83): a linear
layer all of whose parameters have been zeroed by `zero_module`. -/
def zero_linear (rows cols : ℕ) : Linear :=
  ⟨List.replicate rows (List.replicate cols 0), List.replicate rows 0⟩

/-- Association-list lookup, modelling Python dict / `nn.ModuleDict` access. -/
def lookupName {α : Type} : List (String × α) → String → Option α
  | [], _ => none
  | p :: rest, n => if p.1 = n then some p.2 else lookupName rest n

/-- The accumulator `outs` of the forward pass: block name to accumulated
contribution (source line 282). -/
abbrev Outs := List (String × Vec)

/-- Source lines 456-459: `if name not in outs: outs[name] = hint_val else:
outs[name] += hint_val`, as a dict update. -/
def outs_add (outs : Outs) (name : String) (v : Vec) : Outs :=
  match outs with
  | [] => [(name, v)]
  | p :: rest => if p.1 = name then (p.1, addVec p.2 v) :: rest else p :: outs_add rest name v

/-! ### Construction-time state (source lines 57-83) -/

/-- Source line 60: `layer_mask = [False] * num_control_blocks + [True] *
(num_blocks - num_control_blocks)`. -/
def make_layer_mask (num_control_blocks num_blocks : ℕ) : List Bool :=
  List.replicate num_control_blocks false ++ List.replicate (num_blocks - num_control_blocks) true

/-- Python `list.index(True)` (source line 297: `self.layer_mask.index(True)`);
`none` models the `ValueError` raised when no element is `True`. -/
def first_true_index : List Bool → Option ℕ
  | [] => none
  | b :: rest => if b then some 0 else (first_true_index rest).map (fun i => i + 1)

/-- Source lines 78-82: one `zero_module(nn.Linear(model_channels, model_channels))`
per control block name. -/
def init_zero_blocks (names : List String) (model_channels : ℕ) : List (String × Linear) :=
  names.map (fun n => (n, zero_linear model_channels model_channels))

/-- Source lines 70-75 and 83: the `input_hint_block` cascade of linear layers with
a pointwise nonlinearity (SiLU) after each, followed by the appended final layer
(zero-initialized at construction, line 83).  The nonlinearity is kept abstract. -/
def input_hint_block_apply (nonlin : ℚ → ℚ) (cascade : List Linear) (final : Linear) (h : Vec) : Vec :=
  final.apply (cascade.foldl (fun v l => (l.apply v).map nonlin) h)

/-! ### Branch dropout gate (source lines 284-295) -/

/-- Source lines 286-295.  `is_training = torch.is_grad_enabled()`;
`is_training_base_model = any(p.requires_grad for p in base_model.parameters())`;
in the joint case one uniform draw per batch element is consumed from `randoms`
and the gate is `rand > dropout_ctrl_branch`; otherwise the scalar `1` (modelled
as a constant-one vector over the batch).  The second component is a ghost count
of how many random values the gate consumed. -/
def resolve_coin_flip (is_grad_enabled : Bool) (base_params_requires_grad : List Bool)
    (B : ℕ) (dropout_ctrl_branch : ℚ) (randoms : List ℚ) : List ℚ × ℕ :=
  let is_training := is_grad_enabled
  let is_training_base_model := base_params_requires_grad.any (fun b => b)
  if is_training && is_training_base_model then
    ((randoms.take B).map (fun r => if dropout_ctrl_branch < r then 1 else 0), B)
  else (List.replicate B 1, 0)

/-! ### Layer-count resolution and per-layer gate (source lines 297-307) -/

/-- Source lines 298-306.  `rand_draw` models the value of
`np.random.randint(num_control_blocks)` consumed when training with
`random_drop_control_blocks`; the caller-supplied `num_layers_to_use` (sentinel `-1`)
is used only when `random_drop_control_blocks` is set and training is off. -/
def resolve_num_layers (random_drop_control_blocks is_training : Bool) (rand_draw : ℕ)
    (num_layers_to_use : Int) (num_control_blocks : ℕ) : Int :=
  if random_drop_control_blocks then
    if is_training then ((rand_draw % num_control_blocks : ℕ) : Int) + 1
    else if num_layers_to_use = -1 then (num_control_blocks : Int)
    else num_layers_to_use
  else (num_control_blocks : Int)

/-- Source line 307: `control_gate_per_layer = [i < num_layers_to_use for i in
range(num_control_blocks)]`. -/
def control_gate_per_layer (num_control_blocks : ℕ) (num_layers_to_use : Int) : List Bool :=
  (List.range num_control_blocks).map (fun i : ℕ => decide ((i : Int) < num_layers_to_use))

/-! ### Multi-source dispatch (source lines 225-236) -/

/-- Source lines 225-236.  On the multicontrol path (`hasattr(self, "hint_encoders")`)
one hint per leading source axis entry is encoded with no further check; on the
shared-encoder path the encoded hint is chunked into `hint_batch / x_batch` pieces
and the assert at line 236 requires a single piece or gradient tracking off.
Returns the number of guided hints or the assertion failure. -/
def guided_hints_count (has_hint_encoders : Bool) (hint_leading : ℕ)
    (hint_batch x_batch : ℕ) (grad_enabled : Bool) : Except String ℕ :=
  if has_hint_encoders then Except.ok hint_leading
  else
    let n := hint_batch / x_batch
    if n = 1 || !grad_enabled then Except.ok n
    else Except.error "Only support multi-control at inference time"

/-! ### Hint channel handling (source lines 144-148) -/

/-- One hint channel, flattened. -/
abbrev Chan := List ℚ

/-- Source lines 144-148 of `encode_hint`: assert `hint.size(1) <= hint_channels`
(error otherwise), zero-pad the channel axis up to `hint_channels` if short, then
hand the channels to the rest of the encoder (patch embedding, positional
embedding and `input_hint_block`; abstracted as `rest`).  Channels are assumed
rectangular, so the padding channels copy the length of the first channel. -/
def encode_hint_channels (hint_channels : ℕ) (rest : List Chan → Vec)
    (hint : List Chan) : Except String Vec :=
  if hint_channels < hint.length then
    Except.error "Expected hint channels at most hint_channels"
  else if hint.length < hint_channels then
    Except.ok (rest (hint ++ List.replicate (hint_channels - hint.length)
      (List.replicate (hint.headD []).length 0)))
  else Except.ok (rest hint)

/-- Zero-padding of the channel axis to `hint_channels`, as the specification
phrases it (the left half of property P3). -/
def pad_channels (hint_channels : ℕ) (hint : List Chan) : List Chan :=
  hint ++ List.replicate (hint_channels - hint.length)
    (List.replicate (hint.headD []).length 0)

/-! ### Shared-module selection on the multicontrol path (source lines 225-231, 323-329) -/

/-- The instance fields of the model object that the multicontrol iteration
assigns to.  Module identities are abstracted as numbers. -/
structure SharedModules where
  input_hint_block : ℕ
  pos_embedder : ℕ
  x_embedder2 : ℕ
  x_embedder : ℕ
  extra_pos_embedder : ℕ
deriving DecidableEq

/-- Source lines 227-231: for each source `i` the hint-encoding loop assigns
`self.input_hint_block`, `self.pos_embedder` and `self.x_embedder2` from
`self.hint_encoders[i]`. -/
def hint_encode_loop (s : SharedModules) (encoders : List SharedModules) : SharedModules :=
  encoders.foldl (fun st e =>
    { st with input_hint_block := e.input_hint_block, pos_embedder := e.pos_embedder,
              x_embedder2 := e.x_embedder2 }) s

/-- Source lines 323-329: for each source `i` the accumulation loop assigns
`self.x_embedder` and `self.extra_pos_embedder` from `self.hint_encoders[i]`. -/
def source_select_loop (s : SharedModules) (encoders : List SharedModules) : SharedModules :=
  encoders.foldl (fun st e =>
    { st with x_embedder := e.x_embedder, extra_pos_embedder := e.extra_pos_embedder }) s

/-- The instance state of the model after a multicontrol forward call: both
per-source loops have run over all sources. -/
def shared_state_after_forward (s : SharedModules) (encoders : List SharedModules) : SharedModules :=
  source_select_loop (hint_encode_loop s encoders) encoders

/-! ### The per-source control-block loop (source lines 398-459, scalar-weight path) -/

/-- State threaded through the block loop: the hidden state `x`, the pending
`guided_hint` (set to `None` once consumed, source line 413), the accumulator
`outs`, and a ghost trace `inj` recording the loop indices at which the
guided-hint addition of line 412 fired. -/
structure BlockLoopState where
  x : Vec
  gh : Option Vec
  outs : Outs
  inj : List ℕ

/-- One iteration of the loop at source lines 398-459 for block `(name, block)` at
enumeration index `idx`: run the block, add the guided hint exactly when it is
still present (lines 411-413), then accumulate
`zero_blocks[name](x) * control_weight[i] * coin_flip * gate` (lines 415-417,
456-459).  The per-sample `coin_flip` enters here as a scalar (its broadcast
against the batch axis is orthogonal to the properties proved below), and the
boolean `gate` multiplies as `1`/`0` exactly as Python bool arithmetic does. -/
def block_step (zb : List (String × Linear)) (cw coin : ℚ) (gates : List Bool)
    (idx : ℕ) (b : String × (Vec → Vec)) (s : BlockLoopState) : BlockLoopState :=
  let x1 := b.2 s.x
  let next : Vec × Option Vec × List ℕ :=
    match s.gh with
    | some h => (addVec x1 h, none, s.inj ++ [idx])
    | none => (x1, none, s.inj)
  let gate : ℚ := if gates.getD idx false then 1 else 0
  let lin := (lookupName zb b.1).getD ⟨[], []⟩
  let hint_val := smul (cw * coin * gate) (lin.apply next.1)
  { x := next.1, gh := next.2.1, outs := outs_add s.outs b.1 hint_val, inj := next.2.2 }

/-- The loop `for idx, (name, block) in enumerate(blocks.items())` (source line 398),
in strict ascending enumeration order starting at `idx`. -/
def run_blocks_from (zb : List (String × Linear)) (cw coin : ℚ) (gates : List Bool) :
    ℕ → List (String × (Vec → Vec)) → BlockLoopState → BlockLoopState
  | _, [], s => s
  | idx, b :: rest, s => run_blocks_from zb cw coin gates (idx + 1) rest (block_step zb cw coin gates idx b s)

/-- The full block loop for one control source: blocks execute in ascending index
order from `0`, starting from hidden state `x` with the pending guided hint `gh`
and the accumulator `outs0` carried over from earlier sources. -/
def run_ctrl_blocks (blocks : List (String × (Vec → Vec))) (zb : List (String × Linear))
    (cw coin : ℚ) (gates : List Bool) (gh : Option Vec) (x : Vec) (outs0 : Outs) : BlockLoopState :=
  run_blocks_from zb cw coin gates 0 blocks ⟨x, gh, outs0, []⟩

/-- Source lines 320-459: the outer loop over guided hints.  Each source `i`
restarts from `x_before_blocks` (line 322), carries its own guided hint and
control weight, and accumulates into the shared `outs` dict (fresh per call,
line 282). -/
def forward_ctrl (blocks : List (String × (Vec → Vec))) (zb : List (String × Linear))
    (coin : ℚ) (gates : List Bool) (x : Vec) (srcs : List (Vec × ℚ)) : Outs :=
  srcs.foldl (fun outs s => (run_ctrl_blocks blocks zb s.2 coin gates (some s.1) x outs).outs) []

/-! ### The backbone collaborator and the top-level forward dispatch -/

/-- Modelled from the spec (section 6): the backbone collaborator
`base_model.net.forward` is not part of the source under review.  Per its
contract it runs its blocks in order, adds each `x_ctrl` entry at the matching
block boundary, and treats an absent or empty `x_ctrl` as uncontrolled.
`params_requires_grad` lists the `requires_grad` flag of each parameter
(`base_model.parameters()`). -/
structure BaseModel where
  bblocks : List (String × (Vec → Vec))
  finalize : Vec → Vec
  params_requires_grad : List Bool

/-- Modelled from the spec (section 6): the backbone forward with an external
control-signal map `x_ctrl`; entries are added at the matching block boundary,
absent entries change nothing. -/
def base_net_forward (bm : BaseModel) (x : Vec) (x_ctrl : Outs) : Vec :=
  bm.finalize (bm.bblocks.foldl (fun v nb =>
    match lookupName x_ctrl nb.1 with
    | some c => addVec (nb.2 v) c
    | none => nb.2 v) x)

/-- The construction-time and external-collaborator state of
`GeneralDITMulticamEncoder` that the forward pass reads: the hint cascade
(lines 70-75, 83), the control blocks and their zero projections (lines 78-83),
and the abstract embedding collaborators (`prepare_embedded_sequence`, channel
reconciliation of lines 242-265). -/
structure CtrlModel where
  nonlin : ℚ → ℚ
  cascade : List Linear
  final_hint : Linear
  blocks : List (String × (Vec → Vec))
  zero_blocks : List (String × Linear)
  prepare : Vec → Vec
  mutate_x : Vec → Vec

/-- Source lines 198-478, top-level control flow of `forward`: `hint =
kwargs.pop(hint_key)`; if the hint is `None` (line 206) all recorded original
arguments go to `base_model.net.forward` with no control computation (lines
208-223, modelled as an empty `x_ctrl`); otherwise the hint sources are encoded
through `input_hint_block`, the control-block loop accumulates `outs`, and the
backbone is called with the original input `x` plus `x_ctrl = outs`
(lines 461-477). -/
def forward_model (mdl : CtrlModel) (bm : BaseModel) (coin : ℚ) (gates : List Bool)
    (x : Vec) (hint : Option (List (Vec × ℚ))) : Vec :=
  match hint with
  | none => base_net_forward bm x []
  | some srcs =>
      let tokens := mdl.prepare (mdl.mutate_x x)
      let ghs := srcs.map (fun s =>
        (input_hint_block_apply mdl.nonlin mdl.cascade mdl.final_hint s.1, s.2))
      base_net_forward bm x (forward_ctrl mdl.blocks mdl.zero_blocks coin gates tokens ghs)

/-! ### Weight-map resampling (source lines 418-444) -/

/-- A spatial grid (`H × W`). -/
abbrev Grid := List (List ℚ)

/-- A temporal stack of grids (`T × H × W`), one batch-channel slice of the
5D weight map: `torch.nn.functional.interpolate` with a 5D input acts
independently on each `(batch, channel)` slice. -/
abbrev Vol := List Grid

/-- Floor of a non-negative rational as a natural number. -/
def floorNat (c : ℚ) : ℕ := c.num.toNat / c.den

/-- One-dimensional linear sampling at output index `o` of an output axis of size
`out_size`, from input axis `a`, with the `align_corners=False` source-coordinate
convention of `torch.nn.functional.interpolate`: the source coordinate is
`(o + 1/2) * n / out_size - 1/2`, clamped below at `0`, and the two neighbouring
input samples are blended; indices clamp at the last input sample. -/
def sample1D (a : List ℚ) (out_size o : ℕ) : ℚ :=
  let n := a.length
  let c : ℚ := max 0 (((o : ℚ) + 1/2) * (n : ℚ) / (out_size : ℚ) - 1/2)
  let f : ℕ := min (floorNat c) (n - 1)
  let w : ℚ := c - (f : ℚ)
  let i1 : ℕ := min (f + 1) (n - 1)
  (1 - w) * a.getD f 0 + w * a.getD i1 0

/-- Bilinear sampling of a grid at output pixel `(y, x)` of an output grid of
size `Hout × Wout`. -/
def sampleGrid (g : Grid) (Hout Wout y x : ℕ) : ℚ :=
  sample1D (g.map (fun row => sample1D row Wout x)) Hout y

/-- The single output frame of
`torch.nn.functional.interpolate(v, size=(1, Hout, Wout), mode="trilinear",
align_corners=False)` on one batch-channel slice. -/
def interpFrame (v : Vol) (Hout Wout : ℕ) : Grid :=
  (List.range Hout).map (fun y => (List.range Wout).map (fun x =>
    sample1D (v.map (fun g => sampleGrid g Hout Wout y x)) 1 0))

/-- `torch.nn.functional.interpolate(v, size=(1, Hout, Wout), mode="trilinear",
align_corners=False)`: a one-frame volume. -/
def interpolate_to_1HW (v : Vol) (Hout Wout : ℕ) : Vol := [interpFrame v Hout Wout]

/-- The shape `(T, H, W)` of a volume (`weight_map.shape[2:5]`). -/
def shape3 (v : Vol) : ℕ × ℕ × ℕ := (v.length, (v.headD []).length, ((v.headD []).headD []).length)

/-- Python `range(start, stop, step)` for a positive step. -/
def rangeStep (start stop step : ℕ) : List ℕ :=
  (List.range ((stop - start + step - 1) / step)).map (fun k => start + step * k)

/-- Source lines 425-444 on one batch-channel slice: if the weight map already has
shape `(T, H, W)` it is used unchanged; otherwise the assert at line 426 requires
`weight_map.shape[2] == 8 * (T - 1) + 1` (`none` models the assertion failure),
the leading frame `weight_map[:, :, :1]` is interpolated to `(1, H, W)`, each
window `weight_map[:, :, wi : wi + 8]` for `wi in range(1, T_w, 8)` is
interpolated to `(1, H, W)`, and the results are concatenated along time. -/
def resample_weight_map (wm : Vol) (T H W : ℕ) : Option Vol :=
  if shape3 wm = (T, H, W) then some wm
  else if wm.length = 8 * (T - 1) + 1 then
    some (interpolate_to_1HW (wm.take 1) H W ++
      ((rangeStep 1 wm.length 8).map (fun wi => interpolate_to_1HW ((wm.drop wi).take 8) H W)).flatten)
  else none

/-! ### Basic algebra lemmas -/

lemma dot_replicate_zero (c : ℕ) (x : List ℚ) : dot (List.replicate c 0) x = 0 := by
  induction c generalizing x with
  | zero => simp [dot]
  | succ n ih =>
    cases x with
    | nil => simp [dot]
    | cons a xs =>
      simp only [dot, List.replicate_succ, List.zipWith_cons_cons, List.sum_cons, zero_mul, zero_add]
      exact ih xs

lemma zero_linear_apply (m c : ℕ) (x : Vec) : (zero_linear m c).apply x = zeroVec m := by
  simp [Linear.apply, zero_linear, zeroVec, List.zipWith_replicate, dot_replicate_zero]

lemma smul_zeroVec (a : ℚ) (m : ℕ) : smul a (zeroVec m) = zeroVec m := by
  simp [smul, zeroVec, List.map_replicate]

lemma addVec_zeroVec_self (m : ℕ) : addVec (zeroVec m) (zeroVec m) = zeroVec m := by
  simp [addVec, zeroVec, List.zipWith_replicate]

lemma addVec_zeroVec_right (v : Vec) (m : ℕ) (h : v.length = m) : addVec v (zeroVec m) = v := by
  subst h
  induction v with
  | nil => rfl
  | cons a vs ih => simp [addVec, zeroVec, List.replicate_succ] at ih ⊢; exact ih

lemma lookupName_mem {α : Type} (l : List (String × α)) (n : String) (v : α)
    (h : lookupName l n = some v) : ∃ p, p ∈ l ∧ p.1 = n ∧ p.2 = v := by
  induction l with
  | nil => simp [lookupName] at h
  | cons p rest ih =>
    by_cases hp : p.1 = n
    · simp [lookupName, hp] at h
      exact ⟨p, List.mem_cons_self p rest, hp, h⟩
    · simp [lookupName, hp] at h
      obtain ⟨q, hq, h1, h2⟩ := ih h
      exact ⟨q, List.mem_cons_of_mem _ hq, h1, h2⟩

lemma lookupName_init_zero_blocks (names : List String) (mc : ℕ) (n : String)
    (h : n ∈ names) : lookupName (init_zero_blocks names mc) n = some (zero_linear mc mc) := by
  induction names with
  | nil => simp at h
  | cons m rest ih =>
    rcases List.mem_cons.mp h with h1 | h1
    · simp [init_zero_blocks, lookupName, h1]
    · by_cases hm : m = n
      · simp [init_zero_blocks, lookupName, hm]
      · simpa [init_zero_blocks, lookupName, hm] using ih h1

lemma mem_outs_add {outs : Outs} {name : String} {v : Vec} {p : String × Vec}
    (hp : p ∈ outs_add outs name v) :
    p ∈ outs ∨ p.2 = v ∨ ∃ w, lookupName outs name = some w ∧ p.2 = addVec w v := by
  induction outs with
  | nil =>
    simp [outs_add] at hp
    subst hp; right; left; rfl
  | cons q rest ih =>
    by_cases hq : q.1 = name
    · simp only [outs_add, if_pos hq] at hp
      rcases List.mem_cons.mp hp with h1 | h1
      · right; right
        exact ⟨q.2, by simp [lookupName, hq], by rw [h1]⟩
      · left; exact List.mem_cons_of_mem _ h1
    · simp only [outs_add, if_neg hq] at hp
      rcases List.mem_cons.mp hp with h1 | h1
      · left; rw [h1]; exact List.mem_cons_self q rest
      · rcases ih h1 with h2 | h2 | ⟨w, hw1, hw2⟩
        · left; exact List.mem_cons_of_mem _ h2
        · right; left; exact h2
        · right; right; exact ⟨w, by simpa [lookupName, hq] using hw1, hw2⟩

/-! ### Claim C1: no-op at initialization -/

lemma run_from_outs_zero (names : List String) (mc : ℕ)
    (blocks : List (String × (Vec → Vec))) (hb : ∀ b ∈ blocks, b.1 ∈ names)
    (cw coin : ℚ) (gates : List Bool) (idx : ℕ) (s : BlockLoopState)
    (hs : ∀ p ∈ s.outs, p.2 = zeroVec mc) :
    ∀ p ∈ (run_blocks_from (init_zero_blocks names mc) cw coin gates idx blocks s).outs,
      p.2 = zeroVec mc := by
  induction blocks generalizing idx s with
  | nil => simpa [run_blocks_from] using hs
  | cons b rest ih =>
    refine ih (fun q hq => hb q (List.mem_cons_of_mem _ hq)) (idx + 1) _ ?_
    intro p hp
    have hlin : lookupName (init_zero_blocks names mc) b.1 = some (zero_linear mc mc) :=
      lookupName_init_zero_blocks names mc b.1 (hb b (List.mem_cons_self b rest))
    have hval : ∀ x2 : Vec,
        smul (cw * coin * (if gates.getD idx false then 1 else 0))
          (((lookupName (init_zero_blocks names mc) b.1).getD ⟨[], []⟩).apply x2) = zeroVec mc := by
      intro x2
      rw [hlin]
      simp [zero_linear_apply, smul_zeroVec]
    simp only [block_step] at hp
    rcases mem_outs_add hp with h1 | h1 | ⟨w, hw1, hw2⟩
    · exact hs p h1
    · rw [h1]; exact hval _
    · have hwz : w = zeroVec mc := by
        rcases lookupName_mem _ _ _ hw1 with ⟨q, hq, _, hq2⟩
        rw [← hq2]; exact hs q hq
      rw [hw2, hwz, hval _]
      exact addVec_zeroVec_self mc

lemma forward_ctrl_outs_zero (names : List String) (mc : ℕ)
    (blocks : List (String × (Vec → Vec))) (hb : ∀ b ∈ blocks, b.1 ∈ names)
    (coin : ℚ) (gates : List Bool) (x : Vec) (srcs : List (Vec × ℚ)) :
    ∀ p ∈ forward_ctrl blocks (init_zero_blocks names mc) coin gates x srcs, p.2 = zeroVec mc := by
  have main : ∀ (srcs : List (Vec × ℚ)) (outs : Outs), (∀ p ∈ outs, p.2 = zeroVec mc) →
      ∀ p ∈ srcs.foldl (fun outs s =>
        (run_ctrl_blocks blocks (init_zero_blocks names mc) s.2 coin gates (some s.1) x outs).outs) outs,
        p.2 = zeroVec mc := by
    intro srcs
    induction srcs with
    | nil => intro outs h; simpa using h
    | cons s rest ih =>
      intro outs h
      simp only [List.foldl_cons]
      exact ih _ (run_from_outs_zero names mc blocks hb s.2 coin gates 0 _ h)
  exact main srcs [] (by simp)

lemma base_fold_zero_ctrl (bblocks : List (String × (Vec → Vec))) (mc : ℕ)
    (hbb : ∀ nb ∈ bblocks, ∀ v : Vec, v.length = mc → (nb.2 v).length = mc)
    (ctrl : Outs) (hc : ∀ p ∈ ctrl, p.2 = zeroVec mc) (v : Vec) (hv : v.length = mc) :
    bblocks.foldl (fun v nb =>
      match lookupName ctrl nb.1 with
      | some c => addVec (nb.2 v) c
      | none => nb.2 v) v =
    bblocks.foldl (fun v nb =>
      match lookupName ([] : Outs) nb.1 with
      | some c => addVec (nb.2 v) c
      | none => nb.2 v) v := by
  induction bblocks generalizing v with
  | nil => rfl
  | cons nb rest ih =>
    have hlen : (nb.2 v).length = mc := hbb nb (List.mem_cons_self nb rest) v hv
    have hstep : (match lookupName ctrl nb.1 with
        | some c => addVec (nb.2 v) c
        | none => nb.2 v) = nb.2 v := by
      cases hl : lookupName ctrl nb.1 with
      | none => rfl
      | some c =>
        have : c = zeroVec mc := by
          rcases lookupName_mem _ _ _ hl with ⟨q, hq, _, hq2⟩
          rw [← hq2]; exact hc q hq
        simp only [this]
        exact addVec_zeroVec_right _ mc hlen
    simp only [List.foldl_cons, lookupName, hstep]
    exact ih (fun q hq => hbb q (List.mem_cons_of_mem _ hq)) (nb.2 v) hlen

/-- C1 (no-op at initialization): when the zero projections and the final layer of
the hint cascade carry their construction-time all-zero weights (source lines
78-83), the guided hint of every hint input is the zero vector, every accumulated
per-block contribution in `outs` is the zero tensor, and the forward output
equals the unmodified backbone output. -/
theorem claim1_noop_at_init (mdl : CtrlModel) (bm : BaseModel) (coin : ℚ)
    (gates : List Bool) (x : Vec) (srcs : List (Vec × ℚ)) (names : List String) (mc d : ℕ)
    (hzb : mdl.zero_blocks = init_zero_blocks names mc)
    (hfin : mdl.final_hint = zero_linear mc d)
    (hnames : ∀ nb ∈ mdl.blocks, nb.1 ∈ names)
    (hx : x.length = mc)
    (hbb : ∀ nb ∈ bm.bblocks, ∀ v : Vec, v.length = mc → (nb.2 v).length = mc) :
    (∀ h : Vec, input_hint_block_apply mdl.nonlin mdl.cascade mdl.final_hint h = zeroVec mc) ∧
    (∀ p ∈ forward_ctrl mdl.blocks mdl.zero_blocks coin gates (mdl.prepare (mdl.mutate_x x))
        (srcs.map (fun s => (input_hint_block_apply mdl.nonlin mdl.cascade mdl.final_hint s.1, s.2))),
      p.2 = zeroVec mc) ∧
    forward_model mdl bm coin gates x (some srcs) = base_net_forward bm x [] := by
  have hhint : ∀ h : Vec, input_hint_block_apply mdl.nonlin mdl.cascade mdl.final_hint h = zeroVec mc := by
    intro h
    rw [input_hint_block_apply, hfin, zero_linear_apply]
  have houts : ∀ p ∈ forward_ctrl mdl.blocks mdl.zero_blocks coin gates (mdl.prepare (mdl.mutate_x x))
      (srcs.map (fun s => (input_hint_block_apply mdl.nonlin mdl.cascade mdl.final_hint s.1, s.2))),
      p.2 = zeroVec mc := by
    rw [hzb]
    exact forward_ctrl_outs_zero names mc mdl.blocks hnames coin gates _ _
  refine ⟨hhint, houts, ?_⟩
  show base_net_forward bm x _ = base_net_forward bm x []
  unfold base_net_forward
  congr 1
  exact base_fold_zero_ctrl bm.bblocks mc hbb _ houts x hx

/-- Witness for C1 at a concrete one-block model. -/
theorem claim1_noop_at_init_witness :
    (([(0 : ℚ)] : Vec).length = 1) ∧
    ((∀ h : Vec, input_hint_block_apply (fun q => q) [] (zero_linear 1 1) h = zeroVec 1) ∧
     (∀ p ∈ forward_ctrl [("block0", fun v : Vec => v)] (init_zero_blocks ["block0"] 1) 1 [true]
         ((fun v : Vec => v) ((fun v : Vec => v) [(0 : ℚ)]))
         ([([(0 : ℚ)], (1 : ℚ))].map (fun s => (input_hint_block_apply (fun q => q) [] (zero_linear 1 1) s.1, s.2))),
       p.2 = zeroVec 1) ∧
     forward_model ⟨fun q => q, [], zero_linear 1 1, [("block0", fun v => v)],
         init_zero_blocks ["block0"] 1, fun v => v, fun v => v⟩
       ⟨[("b", fun v => v)], fun v => v, []⟩ 1 [true] [(0 : ℚ)] (some [([(0 : ℚ)], (1 : ℚ))]) =
     base_net_forward ⟨[("b", fun v => v)], fun v => v, []⟩ [(0 : ℚ)] []) :=
  ⟨rfl, claim1_noop_at_init
    ⟨fun q => q, [], zero_linear 1 1, [("block0", fun v => v)],
      init_zero_blocks ["block0"] 1, fun v => v, fun v => v⟩
    ⟨[("b", fun v => v)], fun v => v, []⟩ 1 [true] [(0 : ℚ)] [([(0 : ℚ)], (1 : ℚ))]
    ["block0"] 1 1 rfl rfl (by intro nb hnb; simp at hnb; simp [hnb]) rfl
    (by intro nb hnb v hv; simp at hnb; rw [hnb]; exact hv)⟩

/-- C2 (bypass): with no hint tensor present under the hint key, the forward pass
hands the recorded original arguments to the backbone with no control-signal map
and returns its result verbatim (source lines 206-223). -/
theorem claim2_bypass (mdl : CtrlModel) (bm : BaseModel) (coin : ℚ) (gates : List Bool) (x : Vec) :
    forward_model mdl bm coin gates x none = base_net_forward bm x [] := rfl

/-! ### Claim C5: branch-dropout determinism -/

/-- C5 (branch-dropout determinism): the per-sample gate is `1` for every batch
element and consumes no randomness unless gradient tracking is on and the base
model has a parameter with `requires_grad`; exactly in that joint case one
uniform value per batch element is consumed and the gate is `1` iff the value
exceeds `dropout_ctrl_branch` (source lines 284-295). -/
theorem claim5_branch_dropout_determinism (grad : Bool) (params : List Bool) (B : ℕ)
    (p : ℚ) (rnd : List ℚ) :
    (¬ (grad = true ∧ params.any (fun b => b) = true) →
      resolve_coin_flip grad params B p rnd = (List.replicate B 1, 0)) ∧
    (grad = true → params.any (fun b => b) = true →
      resolve_coin_flip grad params B p rnd =
        ((rnd.take B).map (fun r => if p < r then 1 else 0), B)) := by
  constructor
  · intro h
    have h2 : (grad && params.any fun b => b) = false := by
      cases hg : grad with
      | false => simp
      | true =>
        cases ha : params.any fun b => b with
        | false => simp
        | true => exact absurd ⟨hg, ha⟩ h
    simp [resolve_coin_flip, h2]
  · intro h1 h2
    simp [resolve_coin_flip, h1, h2]

/-- Witness for C5 at concrete inputs. -/
theorem claim5_branch_dropout_determinism_witness :
    (¬ (false = true ∧ ([true] : List Bool).any (fun b => b) = true) →
      resolve_coin_flip false [true] 2 (1/2) [1/4, 3/4] = (List.replicate 2 1, 0)) ∧
    (false = true → ([true] : List Bool).any (fun b => b) = true →
      resolve_coin_flip false [true] 2 (1/2) [1/4, 3/4] =
        ((([1/4, 3/4] : List ℚ).take 2).map (fun r => if (1/2 : ℚ) < r then 1 else 0), 2)) :=
  claim5_branch_dropout_determinism false [true] 2 (1/2) [1/4, 3/4]

/-! ### Claim C6: multi-source training restriction -/

/-- C6 counterexample: on the multicontrol path (`hint_encoders` present, source
lines 225-231) a call with two control sources during gradient-tracked execution
succeeds, so the claim that every such call fails is false. -/
theorem claim6_multisource_counterexample :
    1 < 2 ∧ guided_hints_count true 2 2 1 true = Except.ok 2 := ⟨by norm_num, rfl⟩

/-- C6 (amended): on the shared-encoder path (no `hint_encoders` attribute), a
chunked hint with more than one source fails the assert of line 236 whenever
gradient tracking is active, before any per-block accumulation; with gradient
tracking off the same call succeeds.  The multicontrol path performs no such
check. -/
theorem claim6_multisource_training_restriction (hint_leading hint_batch x_batch : ℕ) :
    (1 < hint_batch / x_batch →
      guided_hints_count false hint_leading hint_batch x_batch true =
        Except.error "Only support multi-control at inference time") ∧
    guided_hints_count false hint_leading hint_batch x_batch false =
      Except.ok (hint_batch / x_batch) := by
  constructor
  · intro h
    have h2 : ¬ (hint_batch / x_batch = 1) := by omega
    simp [guided_hints_count, h2]
  · by_cases h : hint_batch / x_batch = 1 <;> simp [guided_hints_count, h]

/-- Witness for the amended C6 at concrete inputs. -/
theorem claim6_multisource_training_restriction_witness :
    (1 < 2 / 1 ∧ guided_hints_count false 0 2 1 true =
      Except.error "Only support multi-control at inference time") ∧
    guided_hints_count false 0 2 1 false = Except.ok (2 / 1) :=
  ⟨⟨by norm_num, (claim6_multisource_training_restriction 0 2 1).1 (by norm_num)⟩,
   (claim6_multisource_training_restriction 0 2 1).2⟩

/-! ### Claim C7: layer-mask derivation -/

/-- C7 counterexample: `num_control_blocks = total_blocks = 1` satisfies the
construction invariant `0 < num_control_blocks <= total_blocks` (source line 59),
yet the layer mask has no `True` entry, so `self.layer_mask.index(True)` at
line 297 raises and the derivation fails. -/
theorem claim7_layer_mask_counterexample :
    0 < 1 ∧ 1 ≤ 1 ∧ first_true_index (make_layer_mask 1 1) = none := by decide

lemma first_true_index_cons (b : Bool) (l : List Bool) :
    first_true_index (b :: l) =
      if b then some 0 else (first_true_index l).map (fun i => i + 1) := rfl

lemma first_true_index_replicate_false (n : ℕ) (l : List Bool) :
    first_true_index (List.replicate n false ++ l) =
      (first_true_index l).map (fun i => i + n) := by
  induction n with
  | zero => simp
  | succ m ih =>
    rw [List.replicate_succ, List.cons_append, first_true_index_cons, if_neg (by simp), ih]
    cases first_true_index l with
    | none => rfl
    | some i =>
      show some (i + m + 1) = some (i + (m + 1))
      congr 1

/-- C7 (amended): for strictly interior configurations `0 < num_control_blocks <
total_blocks` the layer mask is a prefix of `False` of length
`num_control_blocks` followed by `True`, and the first-`True` scan of line 297
succeeds and returns `num_control_blocks`; at the boundary `num_control_blocks =
total_blocks` (allowed by the assert at line 59) the scan fails. -/
theorem claim7_layer_mask_derivation (ncb total : ℕ) (_h0 : 0 < ncb) (h1 : ncb < total) :
    (make_layer_mask ncb total).length = total ∧
    (∀ i, i < ncb → (make_layer_mask ncb total).getD i true = false) ∧
    (∀ i, ncb ≤ i → i < total → (make_layer_mask ncb total).getD i false = true) ∧
    first_true_index (make_layer_mask ncb total) = some ncb := by
  refine ⟨?_, ?_, ?_, ?_⟩
  · simp only [make_layer_mask, List.length_append, List.length_replicate]
    omega
  · intro i hi
    rw [make_layer_mask, List.getD_eq_getElem?_getD, List.getElem?_append,
      if_pos (by simpa using hi)]
    simp [List.getElem?_replicate, hi]
  · intro i hi1 hi2
    have hlen : (List.replicate ncb false).length ≤ i := by simpa using hi1
    rw [make_layer_mask, List.getD_eq_getElem?_getD, List.getElem?_append_right hlen]
    rw [List.getElem?_replicate, if_pos (by simp; omega)]
    rfl
  · obtain ⟨j, hj⟩ : ∃ j, total - ncb = j + 1 := ⟨total - ncb - 1, by omega⟩
    rw [make_layer_mask, first_true_index_replicate_false, hj, List.replicate_succ,
      first_true_index_cons, if_pos rfl]
    simp

/-- Witness for the amended C7 at a concrete configuration. -/
theorem claim7_layer_mask_derivation_witness :
    (0 < 2 ∧ 2 < 5) ∧
    ((make_layer_mask 2 5).length = 5 ∧
     (∀ i, i < 2 → (make_layer_mask 2 5).getD i true = false) ∧
     (∀ i, 2 ≤ i → i < 5 → (make_layer_mask 2 5).getD i false = true) ∧
     first_true_index (make_layer_mask 2 5) = some 2) :=
  ⟨⟨by norm_num, by norm_num⟩, claim7_layer_mask_derivation 2 5 (by norm_num) (by norm_num)⟩

/-! ### Claim C8: exactly-once hint injection -/

lemma run_from_inj_of_gh_none (zb : List (String × Linear)) (cw coin : ℚ) (gates : List Bool)
    (bs : List (String × (Vec → Vec))) :
    ∀ (idx : ℕ) (s : BlockLoopState), s.gh = none →
      (run_blocks_from zb cw coin gates idx bs s).inj = s.inj := by
  induction bs with
  | nil => intro idx s _; rfl
  | cons b rest ih =>
    intro idx s hs
    show (run_blocks_from zb cw coin gates (idx + 1) rest (block_step zb cw coin gates idx b s)).inj = s.inj
    have h1 : (block_step zb cw coin gates idx b s).gh = none := by
      simp [block_step, hs]
    have h2 : (block_step zb cw coin gates idx b s).inj = s.inj := by
      simp [block_step, hs]
    rw [ih (idx + 1) _ h1, h2]

/-- C8 (exactly-once hint injection): in a hint-bearing run of the control-block
loop the blocks execute in ascending enumeration order and the guided-hint
addition of source line 412 fires exactly at block index `0`; once the hint has
been consumed (set to `None`, line 413) no later block receives an addition. -/
theorem claim8_injection_once (blocks : List (String × (Vec → Vec)))
    (zb : List (String × Linear)) (cw coin : ℚ) (gates : List Bool)
    (h : Vec) (x : Vec) (outs0 : Outs) (hne : blocks ≠ []) :
    (run_ctrl_blocks blocks zb cw coin gates (some h) x outs0).inj = [0] ∧
    (run_ctrl_blocks blocks zb cw coin gates none x outs0).inj = [] := by
  obtain ⟨b, rest, rfl⟩ := List.exists_cons_of_ne_nil hne
  constructor
  · show (run_blocks_from zb cw coin gates 1 rest
      (block_step zb cw coin gates 0 b ⟨x, some h, outs0, []⟩)).inj = [0]
    rw [run_from_inj_of_gh_none zb cw coin gates rest 1 _ (by simp [block_step])]
    simp [block_step]
  · show (run_blocks_from zb cw coin gates 1 rest
      (block_step zb cw coin gates 0 b ⟨x, none, outs0, []⟩)).inj = []
    rw [run_from_inj_of_gh_none zb cw coin gates rest 1 _ (by simp [block_step])]
    simp [block_step]

/-- Witness for C8 at a concrete two-block loop. -/
theorem claim8_injection_once_witness :
    (([("block0", fun v : Vec => v), ("block1", fun v : Vec => v)] :
        List (String × (Vec → Vec))) ≠ []) ∧
    ((run_ctrl_blocks [("block0", fun v : Vec => v), ("block1", fun v : Vec => v)] [] 1 1
        [true, true] (some [(1 : ℚ)]) [(0 : ℚ)] []).inj = [0] ∧
     (run_ctrl_blocks [("block0", fun v : Vec => v), ("block1", fun v : Vec => v)] [] 1 1
        [true, true] none [(0 : ℚ)] []).inj = []) :=
  ⟨by simp, claim8_injection_once _ [] 1 1 [true, true] [(1 : ℚ)] [(0 : ℚ)] [] (by simp)⟩

/-! ### Claim C10: shared-state mutation on the multicontrol path -/

/-- C10 evaluation: a multicontrol forward call with two sources leaves the
modules of the last source installed on the shared instance fields — the
per-source selection mutates state that other callers of the model object
observe (source lines 227-231 and 323-329). -/
theorem claim10_shared_state_mutated :
    shared_state_after_forward ⟨0, 0, 0, 0, 0⟩ [⟨1, 2, 3, 4, 5⟩, ⟨6, 7, 8, 9, 10⟩] =
      ⟨6, 7, 8, 9, 10⟩ ∧
    shared_state_after_forward ⟨0, 0, 0, 0, 0⟩ [⟨1, 2, 3, 4, 5⟩, ⟨6, 7, 8, 9, 10⟩] ≠
      ⟨0, 0, 0, 0, 0⟩ := by decide

/-! ### Claim C4: layer gating -/

lemma lookupName_outs_add_ne {outs : Outs} {n m : String} (v : Vec) (h : n ≠ m) :
    lookupName (outs_add outs n v) m = lookupName outs m := by
  induction outs with
  | nil => simp [outs_add, lookupName, h]
  | cons p rest ih =>
    by_cases hp : p.1 = n
    · simp only [outs_add, if_pos hp, lookupName]
      rw [if_neg (by rw [hp]; exact h), if_neg (by rw [hp]; exact h)]
    · simp only [outs_add, if_neg hp, lookupName]
      by_cases hm : p.1 = m
      · rw [if_pos hm, if_pos hm]
      · rw [if_neg hm, if_neg hm, ih]

lemma lookupName_outs_add_self (outs : Outs) (n : String) (v : Vec) :
    lookupName (outs_add outs n v) n =
      some (match lookupName outs n with
            | some w => addVec w v
            | none => v) := by
  induction outs with
  | nil => simp [outs_add, lookupName]
  | cons p rest ih =>
    by_cases hp : p.1 = n
    · simp [outs_add, hp, lookupName]
    · simp [outs_add, hp, lookupName, ih]

lemma mem_smul_zero {u : Vec} {q : ℚ} (hq : q ∈ smul 0 u) : q = 0 := by
  simp only [smul, List.mem_map] at hq
  obtain ⟨r, _, hr⟩ := hq
  rw [← hr, zero_mul]

lemma mem_addVec_zero {a b : Vec} (ha : ∀ q ∈ a, q = 0) (hb : ∀ q ∈ b, q = 0) :
    ∀ q ∈ addVec a b, q = 0 := by
  induction a generalizing b with
  | nil => intro q hq; simp [addVec] at hq
  | cons a0 arest ih =>
    intro q hq
    cases b with
    | nil => simp [addVec] at hq
    | cons b0 brest =>
      simp only [addVec, List.zipWith_cons_cons, List.mem_cons] at hq
      rcases hq with hq | hq
      · rw [hq, ha a0 (by simp), hb b0 (by simp), add_zero]
      · exact ih (fun r hr => ha r (by simp [hr])) (fun r hr => hb r (by simp [hr])) q hq

lemma run_from_zero_at (zb : List (String × Linear)) (cw coin : ℚ) (gates : List Bool)
    (name : String) (bs : List (String × (Vec → Vec))) :
    ∀ (j : ℕ) (s : BlockLoopState),
      (∀ i b, bs[i]? = some b → b.1 = name → gates.getD (j + i) false = false) →
      (∀ v, lookupName s.outs name = some v → ∀ q ∈ v, q = 0) →
      ∀ v, lookupName (run_blocks_from zb cw coin gates j bs s).outs name = some v →
        ∀ q ∈ v, q = 0 := by
  induction bs with
  | nil => intro j s _ hs; exact hs
  | cons b rest ih =>
    intro j s hg hs
    refine ih (j + 1) (block_step zb cw coin gates j b s) (fun i bb hbb hname => ?_) ?_
    · have h1 := hg (i + 1) bb (by simpa using hbb) hname
      have h2 : j + 1 + i = j + (i + 1) := by omega
      rw [h2]; exact h1
    · intro v hv
      by_cases hb : b.1 = name
      · have hgate : gates.getD j false = false := by
          have := hg 0 b (by simp) hb
          simpa using this
        have hcoeff : cw * coin * (if gates.getD j false then (1 : ℚ) else 0) = 0 := by
          rw [hgate]; simp
        simp only [block_step, hb] at hv
        rw [lookupName_outs_add_self] at hv
        cases hl : lookupName s.outs name with
        | none =>
          rw [hl] at hv
          have hv2 := Option.some.inj hv
          intro q hq
          rw [← hv2, hcoeff] at hq
          exact mem_smul_zero hq
        | some w =>
          rw [hl] at hv
          have hv2 := Option.some.inj hv
          intro q hq
          rw [← hv2, hcoeff] at hq
          exact mem_addVec_zero (hs w hl) (fun r hr => mem_smul_zero hr) q hq
      · simp only [block_step] at hv
        rw [lookupName_outs_add_ne _ hb] at hv
        exact hs v hv

lemma forward_ctrl_zero_at (blocks : List (String × (Vec → Vec))) (zb : List (String × Linear))
    (coin : ℚ) (gates : List Bool) (name : String) (x : Vec) (srcs : List (Vec × ℚ))
    (hg : ∀ i b, blocks[i]? = some b → b.1 = name → gates.getD i false = false) :
    ∀ v, lookupName (forward_ctrl blocks zb coin gates x srcs) name = some v →
      ∀ q ∈ v, q = 0 := by
  have main : ∀ (srcs : List (Vec × ℚ)) (outs : Outs),
      (∀ v, lookupName outs name = some v → ∀ q ∈ v, q = 0) →
      ∀ v, lookupName (srcs.foldl (fun outs s =>
          (run_ctrl_blocks blocks zb s.2 coin gates (some s.1) x outs).outs) outs) name = some v →
        ∀ q ∈ v, q = 0 := by
    intro srcs
    induction srcs with
    | nil => intro outs h; exact h
    | cons s rest ih =>
      intro outs h
      simp only [List.foldl_cons]
      refine ih _ ?_
      exact run_from_zero_at zb s.2 coin gates name blocks 0
        ⟨x, some s.1, outs, []⟩ (fun i b hb hn => by simpa using hg i b hb hn) h
  exact main srcs [] (fun v hv => by simp [lookupName] at hv)

lemma gate_getD_lt (n : ℕ) (k : Int) (i : ℕ) (h : i < n) :
    (control_gate_per_layer n k).getD i false = decide ((i : Int) < k) := by
  rw [control_gate_per_layer, List.getD_eq_getElem?_getD, List.getElem?_map,
    List.getElem?_range h, Option.map_some']
  rfl

lemma run_from_gates_agree (zb : List (String × Linear)) (cw coin : ℚ)
    (g1 g2 : List Bool) (name : String) (bs : List (String × (Vec → Vec))) :
    ∀ (j : ℕ) (s1 s2 : BlockLoopState),
      s1.x = s2.x → s1.gh = s2.gh →
      lookupName s1.outs name = lookupName s2.outs name →
      (∀ i b, bs[i]? = some b → b.1 = name → g1.getD (j + i) false = g2.getD (j + i) false) →
      (run_blocks_from zb cw coin g1 j bs s1).x = (run_blocks_from zb cw coin g2 j bs s2).x ∧
      (run_blocks_from zb cw coin g1 j bs s1).gh = (run_blocks_from zb cw coin g2 j bs s2).gh ∧
      lookupName (run_blocks_from zb cw coin g1 j bs s1).outs name =
        lookupName (run_blocks_from zb cw coin g2 j bs s2).outs name := by
  induction bs with
  | nil => intro j s1 s2 hx hgh houts _; exact ⟨hx, hgh, houts⟩
  | cons b rest ih =>
    intro j s1 s2 hx hgh houts hg
    have hgrec : ∀ i bb, rest[i]? = some bb → bb.1 = name →
        g1.getD (j + 1 + i) false = g2.getD (j + 1 + i) false := by
      intro i bb hbb hname
      have h1 := hg (i + 1) bb (by simpa using hbb) hname
      have h2 : j + 1 + i = j + (i + 1) := by omega
      rw [h2]; exact h1
    have houts_step : ∀ x2 : Vec,
        lookupName (outs_add s1.outs b.1
          (smul (cw * coin * if g1.getD j false then (1 : ℚ) else 0)
            (((lookupName zb b.1).getD ⟨[], []⟩).apply x2))) name =
        lookupName (outs_add s2.outs b.1
          (smul (cw * coin * if g2.getD j false then (1 : ℚ) else 0)
            (((lookupName zb b.1).getD ⟨[], []⟩).apply x2))) name := by
      intro x2
      by_cases hb : b.1 = name
      · have hgate : g1.getD j false = g2.getD j false := by
          have := hg 0 b (by simp) hb
          simpa using this
        rw [hb, lookupName_outs_add_self, lookupName_outs_add_self, houts, hgate]
      · rw [lookupName_outs_add_ne _ hb, lookupName_outs_add_ne _ hb, houts]
    cases hgh1 : s1.gh with
    | none =>
      have hgh2 : s2.gh = none := by rw [← hgh, hgh1]
      refine ih (j + 1) _ _ ?_ ?_ ?_ hgrec
      · simp only [block_step, hgh1, hgh2, hx]
      · simp only [block_step, hgh1, hgh2]
      · simp only [block_step, hgh1, hgh2, hx]
        exact houts_step _
    | some hh =>
      have hgh2 : s2.gh = some hh := by rw [← hgh, hgh1]
      refine ih (j + 1) _ _ ?_ ?_ ?_ hgrec
      · simp only [block_step, hgh1, hgh2, hx]
      · simp only [block_step, hgh1, hgh2]
      · simp only [block_step, hgh1, hgh2, hx]
        exact houts_step _

lemma forward_ctrl_gates_agree (blocks : List (String × (Vec → Vec)))
    (zb : List (String × Linear)) (coin : ℚ) (g1 g2 : List Bool) (name : String)
    (x : Vec) (srcs : List (Vec × ℚ))
    (hg : ∀ i b, blocks[i]? = some b → b.1 = name → g1.getD i false = g2.getD i false) :
    lookupName (forward_ctrl blocks zb coin g1 x srcs) name =
      lookupName (forward_ctrl blocks zb coin g2 x srcs) name := by
  have main : ∀ (srcs : List (Vec × ℚ)) (o1 o2 : Outs),
      lookupName o1 name = lookupName o2 name →
      lookupName (srcs.foldl (fun outs s =>
          (run_ctrl_blocks blocks zb s.2 coin g1 (some s.1) x outs).outs) o1) name =
      lookupName (srcs.foldl (fun outs s =>
          (run_ctrl_blocks blocks zb s.2 coin g2 (some s.1) x outs).outs) o2) name := by
    intro srcs
    induction srcs with
    | nil => intro o1 o2 h; exact h
    | cons s rest ih =>
      intro o1 o2 h
      simp only [List.foldl_cons]
      refine ih _ _ ?_
      exact (run_from_gates_agree zb s.2 coin g1 g2 name blocks 0
        ⟨x, some s.1, o1, []⟩ ⟨x, some s.1, o2, []⟩ rfl rfl h
        (fun i b hb hn => by simpa using hg i b hb hn)).2.2
  exact main srcs [] [] rfl

/-- C4 counterexample: with `random_drop_control_blocks = False` (the default) and
training off, a caller-supplied `num_layers_to_use = 1` is ignored by the
resolution of source lines 298-306 (all control blocks stay live), so the
contribution accumulated for block index `1 >= 1` is `[1]`, not the zero tensor:
the claim that the caller-supplied value gates the blocks is false. -/
theorem claim4_layer_gating_counterexample :
    lookupName (forward_ctrl [("block0", fun v => v), ("block1", fun v => v)]
      [("block0", ⟨[[1]], [0]⟩), ("block1", ⟨[[1]], [0]⟩)] 1
      (control_gate_per_layer 2 (resolve_num_layers false false 0 1 2))
      [1] [([0], 1)]) "block1" = some [1] ∧ (1 : ℚ) ≠ 0 := by
  constructor
  · simp [forward_ctrl, run_ctrl_blocks, run_blocks_from, block_step, lookupName, outs_add,
      addVec, smul, Linear.apply, dot, control_gate_per_layer, resolve_num_layers,
      List.range_succ]
  · norm_num

/-- C4 (amended): gating is driven by the resolved `num_layers_to_use` (which
equals the caller-supplied value only when `random_drop_control_blocks` is
enabled, training is off and the value is not the `-1` sentinel — source lines
298-306).  For any resolved value `k`: the accumulated contribution of the
control block at prefix index `>= k` is the zero tensor regardless of its
projection weights, and the contribution of a block at index below both `k1` and
`k2` is identical under the two gate settings. -/
theorem claim4_layer_gating (blocks : List (String × (Vec → Vec)))
    (zb : List (String × Linear)) (coin : ℚ) (x : Vec) (srcs : List (Vec × ℚ))
    (idx : ℕ) (name : String) (f : Vec → Vec)
    (hnd : (blocks.map Prod.fst).Nodup)
    (hget : blocks[idx]? = some (name, f)) :
    (∀ k : Int, k ≤ (idx : Int) →
      ∀ v, lookupName (forward_ctrl blocks zb coin
          (control_gate_per_layer blocks.length k) x srcs) name = some v →
        ∀ q ∈ v, q = 0) ∧
    (∀ k1 k2 : Int, (idx : Int) < k1 → (idx : Int) < k2 →
      lookupName (forward_ctrl blocks zb coin
        (control_gate_per_layer blocks.length k1) x srcs) name =
      lookupName (forward_ctrl blocks zb coin
        (control_gate_per_layer blocks.length k2) x srcs) name) := by
  have hidx : idx < blocks.length := by
    by_contra h
    rw [List.getElem?_eq_none (by omega)] at hget
    exact Option.noConfusion hget
  have hsame : ∀ i b, blocks[i]? = some b → b.1 = name → i = idx := by
    intro i b hb hn
    have hlt : i < blocks.length := by
      by_contra h
      rw [List.getElem?_eq_none (by omega)] at hb
      exact Option.noConfusion hb
    refine @List.getElem?_inj _ i idx (blocks.map Prod.fst) (by simpa using hlt) hnd ?_
    rw [List.getElem?_map, List.getElem?_map, hb, hget, Option.map_some', Option.map_some', hn]
  constructor
  · intro k hk
    refine forward_ctrl_zero_at blocks zb coin _ name x srcs (fun i b hb hn => ?_)
    have hi : i = idx := hsame i b hb hn
    subst hi
    rw [gate_getD_lt _ _ _ hidx]
    simp
    omega
  · intro k1 k2 hk1 hk2
    refine forward_ctrl_gates_agree blocks zb coin _ _ name x srcs (fun i b hb hn => ?_)
    have hi : i = idx := hsame i b hb hn
    subst hi
    rw [gate_getD_lt _ _ _ hidx, gate_getD_lt _ _ _ hidx,
      decide_eq_true hk1, decide_eq_true hk2]

/-- Witness for the amended C4 at a concrete two-block model. -/
theorem claim4_layer_gating_witness :
    ((["block0", "block1"] : List String).Nodup) ∧
    ((∀ k : Int, k ≤ ((1 : ℕ) : Int) →
      ∀ v, lookupName (forward_ctrl [("block0", fun v => v), ("block1", fun v => v)]
          [("block0", ⟨[[1]], [0]⟩), ("block1", ⟨[[1]], [0]⟩)] 1
          (control_gate_per_layer ([("block0", fun v : Vec => v), ("block1", fun v : Vec => v)]).length k)
          [1] [([0], 1)]) "block1" = some v →
        ∀ q ∈ v, q = 0) ∧
    (∀ k1 k2 : Int, ((1 : ℕ) : Int) < k1 → ((1 : ℕ) : Int) < k2 →
      lookupName (forward_ctrl [("block0", fun v => v), ("block1", fun v => v)]
        [("block0", ⟨[[1]], [0]⟩), ("block1", ⟨[[1]], [0]⟩)] 1
        (control_gate_per_layer ([("block0", fun v : Vec => v), ("block1", fun v : Vec => v)]).length k1)
        [1] [([0], 1)]) "block1" =
      lookupName (forward_ctrl [("block0", fun v => v), ("block1", fun v => v)]
        [("block0", ⟨[[1]], [0]⟩), ("block1", ⟨[[1]], [0]⟩)] 1
        (control_gate_per_layer ([("block0", fun v : Vec => v), ("block1", fun v : Vec => v)]).length k2)
        [1] [([0], 1)]) "block1")) :=
  ⟨by decide, claim4_layer_gating
    [("block0", fun v => v), ("block1", fun v => v)]
    [("block0", ⟨[[1]], [0]⟩), ("block1", ⟨[[1]], [0]⟩)] 1 [1] [([0], 1)]
    1 "block1" (fun v => v) (by simp) rfl⟩

/-! ### Claim C9: hint channel padding -/

/-- C9 (hint channel padding): `encode_hint` fails for a hint with more channels
than `hint_channels` (assert at source line 144), and for a hint with fewer
channels encoding equals zero-padding the channel axis to `hint_channels` first
and then encoding (lines 145-148). -/
theorem claim9_hint_channel_padding (hint_channels : ℕ) (rest : List Chan → Vec)
    (hint : List Chan) :
    (hint_channels < hint.length →
      encode_hint_channels hint_channels rest hint =
        Except.error "Expected hint channels at most hint_channels") ∧
    (hint.length < hint_channels →
      encode_hint_channels hint_channels rest hint =
        encode_hint_channels hint_channels rest (pad_channels hint_channels hint)) := by
  constructor
  · intro h
    rw [encode_hint_channels, if_pos h]
  · intro h
    simp only [encode_hint_channels, pad_channels]
    rw [if_neg (by omega), if_pos h,
      if_neg (by rw [List.length_append, List.length_replicate]; omega),
      if_neg (by rw [List.length_append, List.length_replicate]; omega)]

/-- Witness for C9: a one-channel hint with `hint_channels = 2`. -/
theorem claim9_hint_channel_padding_witness :
    (([[1, 2]] : List Chan).length < 2) ∧
    encode_hint_channels 2 (fun cs => [cs.flatten.sum]) [[1, 2]] =
      encode_hint_channels 2 (fun cs => [cs.flatten.sum]) (pad_channels 2 [[1, 2]]) :=
  ⟨by norm_num, (claim9_hint_channel_padding 2 (fun cs => [cs.flatten.sum]) [[1, 2]]).2 (by norm_num)⟩

/-! ### Claim C3: weight-map resampling -/

lemma flatten_map_singleton {α β : Type} (l : List α) (g : α → β) :
    (l.map (fun a => [g a])).flatten = l.map g := by
  induction l with
  | nil => rfl
  | cons a rest ih => simp [ih]

lemma rangeStep_length (start stop step : ℕ) :
    (rangeStep start stop step).length = (stop - start + step - 1) / step := by
  simp [rangeStep]

lemma rangeStep_getElem (start stop step i : ℕ) (h : i < (stop - start + step - 1) / step) :
    (rangeStep start stop step)[i]? = some (start + step * i) := by
  rw [rangeStep, List.getElem?_map, List.getElem?_range h, Option.map_some']

/-- C3 (weight-map resampling): when the weight map does not already have shape
`(T, H, W)`, the resampling branch of source lines 425-444 succeeds iff the
temporal length is exactly `8 * (T - 1) + 1` (the assert at line 426 fails
otherwise); on success it emits exactly `T` frames: frame `0` is the trilinear
interpolation of the single leading input frame, and frame `t` for
`1 <= t <= T - 1` is the trilinear interpolation of the stride-8 window of input
frames starting at `1 + 8 * (t - 1)`, all concatenated along time. -/
theorem claim3_weight_map_resampling (wm : Vol) (T H W : ℕ) (hT : 1 ≤ T)
    (hsh : shape3 wm ≠ (T, H, W)) :
    ((resample_weight_map wm T H W).isSome ↔ wm.length = 8 * (T - 1) + 1) ∧
    (wm.length = 8 * (T - 1) + 1 →
      ∃ out, resample_weight_map wm T H W = some out ∧
        out.length = T ∧
        out[0]? = some (interpFrame (wm.take 1) H W) ∧
        ∀ t, 1 ≤ t → t < T →
          out[t]? = some (interpFrame ((wm.drop (1 + 8 * (t - 1))).take 8) H W)) := by
  have hcnt : (wm.length = 8 * (T - 1) + 1) →
      (wm.length - 1 + 8 - 1) / 8 = T - 1 := by
    intro hl
    have h2 : wm.length - 1 + 8 - 1 = 7 + 8 * (T - 1) := by omega
    rw [h2, Nat.add_mul_div_left 7 (T - 1) (by norm_num)]
    norm_num
  constructor
  · by_cases hl : wm.length = 8 * (T - 1) + 1
    · rw [resample_weight_map, if_neg hsh, if_pos hl]
      simp [hl]
    · rw [resample_weight_map, if_neg hsh, if_neg hl]
      simp [hl]
  · intro hl
    have hout : resample_weight_map wm T H W = some (interpFrame (wm.take 1) H W ::
        (rangeStep 1 wm.length 8).map (fun wi => interpFrame ((wm.drop wi).take 8) H W)) := by
      rw [resample_weight_map, if_neg hsh, if_pos hl]
      simp only [interpolate_to_1HW]
      rw [flatten_map_singleton]
      rfl
    refine ⟨_, hout, ?_, ?_, ?_⟩
    · rw [List.length_cons, List.length_map, rangeStep_length, hcnt hl]
      omega
    · simp
    · intro t ht1 ht2
      obtain ⟨j, rfl⟩ : ∃ j, t = j + 1 := ⟨t - 1, by omega⟩
      rw [List.getElem?_cons_succ, List.getElem?_map,
        rangeStep_getElem 1 wm.length 8 j (by rw [hcnt hl]; omega), Option.map_some']
      norm_num

/-- Witness for C3: a 9-frame constant weight map resampled to 2 target frames. -/
theorem claim3_weight_map_resampling_witness :
    (1 ≤ 2 ∧ shape3 (List.replicate 9 [[(1 : ℚ)]]) ≠ (2, 1, 1)) ∧
    (((resample_weight_map (List.replicate 9 [[(1 : ℚ)]]) 2 1 1).isSome ↔
        (List.replicate 9 [[(1 : ℚ)]]).length = 8 * (2 - 1) + 1) ∧
     ((List.replicate 9 [[(1 : ℚ)]]).length = 8 * (2 - 1) + 1 →
       ∃ out, resample_weight_map (List.replicate 9 [[(1 : ℚ)]]) 2 1 1 = some out ∧
         out.length = 2 ∧
         out[0]? = some (interpFrame ((List.replicate 9 [[(1 : ℚ)]]).take 1) 1 1) ∧
         ∀ t, 1 ≤ t → t < 2 →
           out[t]? = some (interpFrame (((List.replicate 9 [[(1 : ℚ)]]).drop (1 + 8 * (t - 1))).take 8) 1 1))) :=
  ⟨⟨by norm_num, by decide⟩, claim3_weight_map_resampling _ 2 1 1 (by norm_num) (by decide)⟩

end CosmosCtrl
